import Mathlib

/-!
Verification of the cloudflare-email-forwarder core against its specification.

The development shallowly embeds two subsystems of the repository:

* the retry persistence engine (`src/retry-queue`-style module: `MAX_RETRY_ATTEMPTS`,
  `calculateRetryDelay`, `updateFailedRequest`, `getRetryableRequests`), with the
  Cloudflare KV namespace modelled as an association list of string keys to stored
  values, and JavaScript `Date.now()` passed in explicitly as a natural number;

* the email normalization helpers (`email-message` module: `parseEmailAddress`,
  `parseEmailAddresses`, `getOriginalSender`, `createStructuredEmail`,
  `updateHeaders`), with JavaScript strings modelled as Lean strings, the fetch-API
  `Headers` object modelled as an association list queried case-insensitively, and
  JavaScript truthiness of strings / nullable strings modelled explicitly.

Machine integers do not occur: every JavaScript number in the embedded code paths
holds a small non-negative integer (attempt counts, millisecond timestamps), so
they are modelled as `Nat`.
-/

/-! ## JavaScript string primitives -/

/-- Characters treated as whitespace by the JavaScript `\s` class, `trim()` and
`parseInt`.  The embedding lists the common members (space, tab, line
terminators, vertical tab, form feed, no-break space, BOM); rarer Unicode space
code points behave identically and never occur in the repository's inputs. -/
def jsWhitespace : List Char :=
  [' ', '\t', '\n', '\r', '\x0b', '\x0c', ' ', '﻿', ' ', ' ']

/-- Boolean test for membership in `jsWhitespace`. -/
def isJsSpace (c : Char) : Bool := decide (c ∈ jsWhitespace)

/-- Line terminators, which the JavaScript regex metacharacter `.` never matches. -/
def isNewlineChar (c : Char) : Bool :=
  c = '\n' ∨ c = '\r' ∨ c = ' ' ∨ c = ' '

/-- JavaScript `String.prototype.trim`: drop leading and trailing whitespace. -/
def jsTrim (l : List Char) : List Char :=
  ((l.dropWhile isJsSpace).reverse.dropWhile isJsSpace).reverse

/-- JavaScript `String.prototype.split` with a single-character separator:
`"a:b".split(':') = ["a","b"]`, `"".split(':') = [""]`. -/
def splitOnChar (sep : Char) : List Char → List (List Char)
  | [] => [[]]
  | c :: rest =>
    let ps := splitOnChar sep rest
    if c = sep then [] :: ps
    else (c :: ps.headD []) :: ps.tail

/-- Numeric value of a decimal digit character. -/
def charToDigit (c : Char) : Nat := c.toNat - 48

/-- Value of a most-significant-first decimal digit string. -/
def decOfDigits (l : List Char) : Nat := l.foldl (fun a c => 10 * a + charToDigit c) 0

/-- The digit-reading core of JavaScript `parseInt(s, 10)`: reads the longest
leading run of decimal digits, `NaN` (here `none`) when there is none. -/
def parseDigits (l : List Char) : Option Nat :=
  let d := l.takeWhile Char.isDigit
  if d.isEmpty then none else some (decOfDigits d)

/-- JavaScript `parseInt(s, 10)`: skip leading whitespace, optional sign, then
the longest leading digit run; `NaN` is modelled as `none`. -/
def jsParseIntChars (l : List Char) : Option Int :=
  let l1 := l.dropWhile isJsSpace
  if l1.head? = some '-' then (parseDigits l1.tail).map (fun n => -(n : Int))
  else if l1.head? = some '+' then (parseDigits l1.tail).map (fun n => (n : Int))
  else (parseDigits l1).map (fun n => (n : Int))

/-- Boolean prefix test on character lists (JavaScript key-prefix filtering). -/
def pfxCheck : List Char → List Char → Bool
  | [], _ => true
  | _ :: _, [] => false
  | a :: as, b :: bs => a = b && pfxCheck as bs

/-- Key prefix test on strings. -/
def keyHasPfx (p s : String) : Bool := pfxCheck p.data s.data

/-- JavaScript truthiness of a nullable string (`null` and `""` are falsy). -/
def jsTruthyO (o : Option String) : Bool := (o.getD "") ≠ ""

/-- JavaScript `a || b` on nullable strings. -/
def jsOrOpt (a b : Option String) : Option String := if jsTruthyO a then a else b

/-- JavaScript `a || d` where `a` is a nullable string and `d` a string default. -/
def jsOrStr (a : Option String) (d : String) : String :=
  if jsTruthyO a then a.getD "" else d

/-! ## Retry persistence engine (translated from the retry-queue module) -/

/-- `MAX_RETRY_ATTEMPTS`: maximum number of retry attempts before giving up. -/
def MAX_RETRY_ATTEMPTS : Nat := 10

/-- `calculateRetryDelay(attemptCount)`: exponential backoff in seconds,
`BASE_DELAY * Math.pow(2, attemptCount)` with `BASE_DELAY = 60`. -/
def calculateRetryDelay (attemptCount : Nat) : Nat := 60 * 2 ^ attemptCount

/-! ### Email data model (translated from the email-message module) -/

/-- `EmailAddress`: a parsed address with display name and bare address. -/
structure EmailAddress where
  email : String
  name : String
  deriving Repr, DecidableEq

/-- `EmailBody`: optional plain-text and HTML body parts. -/
structure EmailBody where
  text : Option String
  html : Option String
  deriving Repr, DecidableEq

/-- `StructuredEmail`: the canonical output record built by `createStructuredEmail`.
The TypeScript field `from` is spelled `fromAddr` because `from` is a Lean keyword;
optional TypeScript fields (`cc?`, `bcc?`) become `Option`, with `none` standing
for `undefined`; the field `to` is spelled `toAddrs` for the same keyword reason. -/
structure StructuredEmail where
  subject : String
  fromAddr : EmailAddress
  toAddrs : List EmailAddress
  cc : Option (List EmailAddress)
  bcc : Option (List EmailAddress)
  date : String
  message_id : String
  headers : List (String × String)
  body : EmailBody
  raw_content : String
  deriving Repr, DecidableEq

/-! ### Retry store model -/

/-- `FailedRequest`: a failed email request queued for retry.  Timestamps are
milliseconds since the epoch; `lastError` is the optional error message. -/
structure FailedRequest where
  id : String
  email : StructuredEmail
  attemptCount : Nat
  firstAttemptTimestamp : Nat
  lastAttemptTimestamp : Nat
  nextRetryTimestamp : Nat
  lastError : Option String
  deriving Repr, DecidableEq

/-- A record as serialized into the KV store: a `FailedRequest` possibly carrying
the `permanentlyFailed: true` marker added on the dead-letter path (`false`
models the field being absent). -/
structure StoredRecord extends FailedRequest where
  permanentlyFailed : Bool
  deriving Repr, DecidableEq

/-- A KV value: either the JSON serialization of a record (`rec`), or a string
that does not parse as a record (`raw`), on which `JSON.parse` throws; the empty
`raw` string also models a falsy `kv.get` result. -/
inductive KVValue where
  | json : StoredRecord → KVValue
  | raw : String → KVValue
  deriving Repr, DecidableEq

/-- The KV namespace: an association list from keys to stored values. -/
abbrev Store := List (String × KVValue)

/-- `kv.get(key)`-style lookup. -/
def kvLookup (s : Store) (k : String) : Option KVValue :=
  (s.find? (fun p => p.1 = k)).map (fun p => p.2)

/-- `kv.delete(key)`: remove the key if present. -/
def kvDelete (s : Store) (k : String) : Store :=
  s.filter (fun p => p.1 ≠ k)

/-- `kv.put(key, value)`: write the key, overwriting any existing value. -/
def kvPut (s : Store) (k : String) (v : KVValue) : Store :=
  kvDelete s k ++ [(k, v)]

/-- The pending-namespace key `retry:<timestamp>:<id>`. -/
def mkRetryKey (ts : Nat) (id : String) : String :=
  "retry:" ++ Nat.repr ts ++ ":" ++ id

/-- The dead-letter key `failed:<timestamp>:<id>`. -/
def mkFailedKey (ts : Nat) (id : String) : String :=
  "failed:" ++ Nat.repr ts ++ ":" ++ id

/-- The dead-letter value written by `updateFailedRequest` when the circuit
breaker trips: the spread `{...failedRequest, attemptCount, lastAttemptTimestamp,
lastError, permanentlyFailed: true}`. -/
def deadLetterRecord (now : Nat) (failedRequest : FailedRequest) (error : Option String) :
    StoredRecord :=
  { failedRequest with
      attemptCount := failedRequest.attemptCount + 1
      lastAttemptTimestamp := now
      lastError := error
      permanentlyFailed := true }

/-- The updated pending record written by `updateFailedRequest` when it
reschedules: attempt count incremented and the next retry timestamp computed
from `calculateRetryDelay` in milliseconds. -/
def updatedRequestRecord (now : Nat) (failedRequest : FailedRequest) (error : Option String) :
    FailedRequest :=
  { failedRequest with
      attemptCount := failedRequest.attemptCount + 1
      lastAttemptTimestamp := now
      nextRetryTimestamp := now + calculateRetryDelay (failedRequest.attemptCount + 1) * 1000
      lastError := error }

/-- `updateFailedRequest(kv, oldKey, failedRequest, success, error)`: delete the
old key; on success stop; otherwise increment the attempt count and either move
the record to the dead-letter namespace (circuit breaker at `MAX_RETRY_ATTEMPTS`)
or reschedule it under a new pending key.  `now` stands for `Date.now()`. -/
def updateFailedRequest (now : Nat) (kv : Store) (oldKey : String)
    (failedRequest : FailedRequest) (success : Bool) (error : Option String) : Store :=
  let kv1 := kvDelete kv oldKey
  if success then kv1
  else
    let newAttemptCount := failedRequest.attemptCount + 1
    if MAX_RETRY_ATTEMPTS ≤ newAttemptCount then
      let deadLetterKey := mkFailedKey now failedRequest.id
      kvPut kv1 deadLetterKey (KVValue.json (deadLetterRecord now failedRequest error))
    else
      let updatedRequest := updatedRequestRecord now failedRequest error
      let newKey := mkRetryKey updatedRequest.nextRetryTimestamp failedRequest.id
      kvPut kv1 newKey (KVValue.json { updatedRequest with permanentlyFailed := false })

/-- One iteration of the `getRetryableRequests` scan loop: parse the timestamp
out of the key (`retry:{timestamp}:{id}`), keep the entry only when the key has
at least three `:`-separated parts, the parsed timestamp is `≤ now`, and the
value is a non-empty JSON-parsable record; every other shape is skipped. -/
def dueEntry (now : Nat) (p : String × KVValue) : Option (String × StoredRecord) :=
  if (splitOnChar ':' p.1.data).length < 3 then none
  else
    match jsParseIntChars ((splitOnChar ':' p.1.data).getD 1 []) with
    | none => none
    | some ts =>
      if ts ≤ (now : Int) then
        match p.2 with
        | KVValue.json r => some (p.1, r)
        | KVValue.raw _ => none
      else none

/-- `getRetryableRequests(kv, limit)`: list up to `limit` keys under the
`retry:` prefix and keep the entries that are due and well-formed. -/
def getRetryableRequests (now : Nat) (kv : Store) (limit : Nat) :
    List (String × StoredRecord) :=
  ((kv.filter (fun p => keyHasPfx "retry:" p.1)).take limit).filterMap (dueEntry now)

/-- Whether a store entry is a pending-namespace key for the given record id
(`retry:` prefix, at least three `:`-separated parts, third part equal to the id). -/
def isPendingFor (id : String) (p : String × KVValue) : Bool :=
  keyHasPfx "retry:" p.1 && (splitOnChar ':' p.1.data).getD 2 [] = id.data
    && 3 ≤ (splitOnChar ':' p.1.data).length

/-- The pending-namespace entries whose key embeds the given id. -/
def pendingEntriesFor (s : Store) (id : String) : Store :=
  s.filter (isPendingFor id)

/-- The dead-letter-namespace entries (keys under the `failed:` prefix). -/
def failedEntries (s : Store) : Store :=
  s.filter (fun p => keyHasPfx "failed:" p.1)

/-- The due timestamp embedded in a pending key, as `getRetryableRequests`
parses it. -/
def keyTimestampOf (k : String) : Option Int :=
  jsParseIntChars ((splitOnChar ':' k.data).getD 1 [])

/-! ## Email normalization helpers (translated from the email-message module) -/

/-- Lowercase a string character-wise (fetch-API `Headers` name matching). -/
def strLower (s : String) : String := String.mk (s.data.map Char.toLower)

/-- The `Headers` object: an association list of header names to values. -/
abbrev HeadersT := List (String × String)

/-- `headers.get(name)`: case-insensitive lookup, `null` (`none`) when absent. -/
def hGet (h : HeadersT) (name : String) : Option String :=
  (h.find? (fun p => strLower p.1 = strLower name)).map (fun p => p.2)

/-- The incoming message as `createStructuredEmail` sees it: envelope sender,
envelope recipient and the `Headers` object.  The TypeScript fields `from` and
`to` are spelled `envFrom` and `envTo` (Lean keyword clash). -/
structure EmailMsg where
  envFrom : String
  envTo : String
  headers : HeadersT
  deriving Repr, DecidableEq

/-- `getOriginalSender(message)`: when a forwarding-indicator header
(`x-forwarded-to` or `x-forwarded-for`) and `return-path` are both truthy,
return the `return-path` value with every `<`/`>` removed; otherwise the
envelope sender. -/
def getOriginalSender (msgFrom : String) (headers : HeadersT) : String :=
  let returnPath := hGet headers "return-path"
  let isForwarded := jsOrOpt (hGet headers "x-forwarded-to") (hGet headers "x-forwarded-for")
  if jsTruthyO isForwarded && jsTruthyO returnPath then
    String.mk ((returnPath.getD "").data.filter (fun c => !(c = '<' || c = '>')))
  else msgFrom

/-- All `<`/`>` characters removed, as `returnPath.replace(/[<>]/g, '')` does. -/
def stripAngleBrackets (s : String) : String :=
  String.mk (s.data.filter (fun c => !(c = '<' || c = '>')))

/-! ### The regex `/^(.+?)\s*<(.+@.+)>$/` of `parseEmailAddress`

The embedding reproduces the JavaScript matching semantics: group 1 is lazy and
consists of at least one non-line-terminator character, `\s*` then consumes the
maximal whitespace run before a literal `<`, and `(.+@.+)>$` forces the final
character of the string to be `>` with the parenthesized group (group 2) the
non-line-terminator text in between, containing an `@` that is neither its
first nor its last character. -/

/-- Match `(.+@.+)>$` against the text following `<`: the string must end with
`>`, and the text before it must be newline-free with an inner `@`. -/
def suffixMatch (s : List Char) : Option (List Char) :=
  match s.getLast? with
  | some '>' =>
    if s.dropLast.all (fun c => !(isNewlineChar c)) &&
        (s.dropLast.drop 1).dropLast.contains '@' then
      some s.dropLast
    else none
  | _ => none

/-- One attempt of the regex with group 1 fixed to `g1`: consume whitespace
from `rest`, require a literal `<`, then match the suffix. -/
def regexAttempt (g1 rest : List Char) : Option (List Char × List Char) :=
  match rest.dropWhile isJsSpace with
  | '<' :: s => (suffixMatch s).map (fun g2 => (g1, g2))
  | _ => none

/-- Backtracking loop of the lazy group 1: try the current split, else grow
group 1 by one (non-line-terminator) character. -/
def regexLoop (g1 : List Char) : List Char → Option (List Char × List Char)
  | [] => regexAttempt g1 []
  | c :: rest =>
    match regexAttempt g1 (c :: rest) with
    | some r => some r
    | none => if isNewlineChar c then none else regexLoop (g1 ++ [c]) rest

/-- `t.match(/^(.+?)\s*<(.+@.+)>$/)`: `some (group1, group2)` on success. -/
def jsMatchNameEmail (t : List Char) : Option (List Char × List Char) :=
  match t with
  | [] => none
  | c :: rest => if isNewlineChar c then none else regexLoop [c] rest

/-- `name.replace(/^["']|["']$/g, '')`: drop one leading and one trailing
quote character (`"` or `'`). -/
def stripOuterQuotes (l : List Char) : List Char :=
  let l1 := match l with
    | c :: rest => if c = '"' || c = '\'' then rest else l
    | [] => []
  match l1.getLast? with
  | some c => if c = '"' || c = '\'' then l1.dropLast else l1
  | none => l1

/-- `parseEmailAddress(address)`: empty input gives empty fields; otherwise the
trimmed input is matched against `/^(.+?)\s*<(.+@.+)>$/`, yielding the trimmed,
quote-stripped display name and the trimmed bracketed address on success, and
the whole trimmed input as the email otherwise. -/
def parseEmailAddress (address : String) : EmailAddress :=
  if address = "" then { email := "", name := "" }
  else
    match jsMatchNameEmail (jsTrim address.data) with
    | some (g1, g2) =>
      { name := String.mk (stripOuterQuotes (jsTrim g1)), email := String.mk (jsTrim g2) }
    | none => { name := "", email := String.mk (jsTrim address.data) }

/-- Number of double-quote characters in a list. -/
def countQuotes (l : List Char) : Nat := (l.filter (fun c => c = '"')).length

/-- The split regex `/,(?=(?:[^"]*"[^"]*")*[^"]*$)/`: split at a comma exactly
when the remainder of the string contains an even number of double quotes. -/
def qSplit : List Char → List (List Char)
  | [] => [[]]
  | c :: rest =>
    let ps := qSplit rest
    if c = ',' && countQuotes rest % 2 = 0 then [] :: ps
    else (c :: ps.headD []) :: ps.tail

/-- `parseEmailAddresses(addresses)`: quote-aware comma split, parse each
trimmed part, keep the results with a truthy (non-empty) email. -/
def parseEmailAddresses (addresses : String) : List EmailAddress :=
  if addresses = "" then []
  else
    ((qSplit addresses.data).map
        (fun part => parseEmailAddress (String.mk (jsTrim part)))).filter
      (fun addr => addr.email ≠ "")

/-! ### Header cleanup and the structured email builder -/

/-- Hyphens replaced by underscores, the global hyphen-to-underscore replace. -/
def snakeCase (s : String) : String :=
  String.mk (s.data.map (fun c => if c = '-' then '_' else c))

/-- JavaScript object field assignment `obj[k] = v` on a `Record<string,string>`
modelled as an association list: update in place when the key exists, append
otherwise. -/
def recSet (r : List (String × String)) (k v : String) : List (String × String) :=
  if r.any (fun p => p.1 = k) then r.map (fun p => if p.1 = k then (k, v) else p)
  else r ++ [(k, v)]

/-- JavaScript `delete obj[k]`. -/
def recDelete (r : List (String × String)) (k : String) : List (String × String) :=
  r.filter (fun p => p.1 ≠ k)

/-- `Object.fromEntries(headers.entries())`: later entries overwrite earlier. -/
def recFromEntries (h : HeadersT) : List (String × String) :=
  h.foldl (fun acc p => recSet acc p.1 p.2) []

/-- `updateHeaders(headers, keysToRemove)`: snake_case every key, then delete
each listed key in both its original and snake_case spelling. -/
def updateHeaders (headers : List (String × String)) (keysToRemove : List String) :
    List (String × String) :=
  let result := headers.foldl (fun acc p => recSet acc (snakeCase p.1) p.2) []
  keysToRemove.foldl (fun acc k => recDelete (recDelete acc k) (snakeCase k)) result

/-- `createStructuredEmail(message, body, rawContent)`: assemble the canonical
record; header-sourced strings default to `""` via `||`, `cc`/`bcc` are parsed
only when their header string is truthy (else `undefined`, here `none`), and
`to` falls back to the envelope recipient via `||`. -/
def createStructuredEmail (message : EmailMsg) (body : EmailBody) (rawContent : String) :
    StructuredEmail :=
  let headerEntries := recFromEntries message.headers
  let cleanHeaders := updateHeaders headerEntries
    ["subject", "from", "to", "cc", "bcc", "date", "message-id"]
  let fromString := getOriginalSender message.envFrom message.headers
  let toString := jsOrStr (hGet message.headers "to") message.envTo
  let ccString := jsOrStr (hGet message.headers "cc") ""
  let bccString := jsOrStr (hGet message.headers "bcc") ""
  { subject := jsOrStr (hGet message.headers "subject") ""
    fromAddr := parseEmailAddress fromString
    toAddrs := parseEmailAddresses toString
    cc := if ccString ≠ "" then some (parseEmailAddresses ccString) else none
    bcc := if bccString ≠ "" then some (parseEmailAddresses bccString) else none
    date := jsOrStr (hGet message.headers "date") ""
    message_id := jsOrStr (hGet message.headers "message-id") ""
    headers := cleanHeaders
    body := body
    raw_content := rawContent }

/-! ## Auxiliary definitions for the proofs -/

/-- Most-significant-first decimal digits of a natural number; the reference
function against which `Nat.repr` is characterized. -/
def decDigits (n : Nat) : List Char :=
  if _h : n < 10 then [Nat.digitChar n]
  else decDigits (n / 10) ++ [Nat.digitChar (n % 10)]
decreasing_by exact Nat.div_lt_self (by omega) (by omega)

/-- A minimal structured email used as payload in concrete witness stores. -/
def sampleEmail : StructuredEmail :=
  { subject := "", fromAddr := { email := "", name := "" }, toAddrs := [], cc := none,
    bcc := none, date := "", message_id := "", headers := [], body := ⟨none, none⟩,
    raw_content := "" }

/-- A pending request on its tenth lifetime attempt (attemptCount 9). -/
def sampleRequest9 : FailedRequest :=
  { id := "abc", email := sampleEmail, attemptCount := 9, firstAttemptTimestamp := 1,
    lastAttemptTimestamp := 2, nextRetryTimestamp := 100, lastError := none }

/-- A pending request with three prior attempts. -/
def sampleRequest3 : FailedRequest :=
  { id := "abc", email := sampleEmail, attemptCount := 3, firstAttemptTimestamp := 1,
    lastAttemptTimestamp := 2, nextRetryTimestamp := 100, lastError := none }

/-- A one-record pending store holding the sample request under its key. -/
def sampleStore : Store :=
  [("retry:100:abc", KVValue.json { sampleRequest9 with permanentlyFailed := false })]

/-- A store mixing a due record, a future record, a malformed key and a raw
value, for the scan witnesses. -/
def sampleScanStore : Store :=
  [("retry:100:abc", KVValue.json { sampleRequest3 with permanentlyFailed := false }),
   ("retry:900:zzz", KVValue.json { sampleRequest3 with id := "zzz", permanentlyFailed := false }),
   ("retry:50:bad", KVValue.raw "not json"),
   ("badkey", KVValue.json { sampleRequest3 with permanentlyFailed := false }),
   ("failed:1:dd", KVValue.json { sampleRequest9 with id := "dd", permanentlyFailed := true })]

/-! ## Helper lemmas: prefixes, digits and splitting -/

/-- A list passes the prefix check against itself followed by anything. -/
theorem pfxCheck_append (p t : List Char) : pfxCheck p (p ++ t) = true := by
  induction p with
  | nil => rfl
  | cons a as ih => simpa [pfxCheck] using ih

/-- A successful prefix check pins down the head of the checked list. -/
theorem pfxCheck_head {a : Char} {as s : List Char} (h : pfxCheck (a :: as) s = true) :
    ∃ bs, s = a :: bs := by
  cases s with
  | nil => simp [pfxCheck] at h
  | cons b bs =>
    simp only [pfxCheck, Bool.and_eq_true, decide_eq_true_eq] at h
    exact ⟨bs, by rw [h.1]⟩

/-- A key in the pending namespace is not in the dead-letter namespace. -/
theorem retry_not_failed {k : String} (h : keyHasPfx "retry:" k = true) :
    keyHasPfx "failed:" k = false := by
  unfold keyHasPfx at h ⊢
  have h2 : pfxCheck ('r' :: "etry:".data) k.data = true := h
  obtain ⟨bs, hbs⟩ := pfxCheck_head h2
  rw [hbs]
  simp [pfxCheck]

/-- `Nat.digitChar` of a digit value is a decimal digit character. -/
theorem digitChar_isDigit {m : Nat} (h : m < 10) : (Nat.digitChar m).isDigit = true := by
  interval_cases m <;> decide

/-- `charToDigit` inverts `Nat.digitChar` on digit values. -/
theorem charToDigit_digitChar {m : Nat} (h : m < 10) : charToDigit (Nat.digitChar m) = m := by
  interval_cases m <;> decide

/-- `decDigits` produces only decimal digit characters. -/
theorem decDigits_all_digit (n : Nat) : ∀ c ∈ decDigits n, c.isDigit = true := by
  induction n using Nat.strong_induction_on with
  | _ n ih =>
    unfold decDigits
    split
    · intro c hc
      rw [List.mem_singleton] at hc
      subst hc
      exact digitChar_isDigit (by omega)
    · intro c hc
      rw [List.mem_append, List.mem_singleton] at hc
      rcases hc with h1 | h1
      · exact ih (n / 10) (Nat.div_lt_self (by omega) (by omega)) c h1
      · subst h1
        exact digitChar_isDigit (Nat.mod_lt _ (by omega))

/-- `decDigits` is never empty. -/
theorem decDigits_ne_nil (n : Nat) : decDigits n ≠ [] := by
  unfold decDigits
  split <;> simp

/-- The fuelled core of `Nat.toDigits` agrees with `decDigits` given enough fuel. -/
theorem toDigitsCore_eq_decDigits (fuel : Nat) :
    ∀ n ds, n < fuel → Nat.toDigitsCore 10 fuel n ds = decDigits n ++ ds := by
  induction fuel with
  | zero => intro n ds h; omega
  | succ f ih =>
    intro n ds h
    unfold Nat.toDigitsCore
    by_cases h10 : n / 10 = 0
    · rw [if_pos h10]
      have hlt : n < 10 := by omega
      unfold decDigits
      rw [dif_pos hlt, Nat.mod_eq_of_lt hlt]
      rfl
    · rw [if_neg h10]
      have hge : 10 ≤ n := by
        by_contra hc
        exact h10 (Nat.div_eq_of_lt (by omega))
      rw [ih (n / 10) _ (by omega)]
      conv_rhs => unfold decDigits
      rw [dif_neg (by omega)]
      simp

/-- The characters of `Nat.repr` are exactly `decDigits`. -/
theorem repr_data (n : Nat) : (Nat.repr n).data = decDigits n := by
  show (Nat.toDigitsCore 10 (n + 1) n []).asString.data = decDigits n
  rw [show ∀ l : List Char, l.asString.data = l from fun _ => rfl]
  rw [toDigitsCore_eq_decDigits (n + 1) n [] (by omega)]
  simp

/-- Decimal keys never contain the `:` separator. -/
theorem colon_not_mem_repr (n : Nat) : ':' ∉ (Nat.repr n).data := by
  rw [repr_data]
  intro hmem
  have := decDigits_all_digit n _ hmem
  simp at this

/-- Reading back the digits of `decDigits` returns the number. -/
theorem decOfDigits_decDigits (n : Nat) : decOfDigits (decDigits n) = n := by
  induction n using Nat.strong_induction_on with
  | _ n ih =>
    unfold decDigits
    split
    · simp [decOfDigits, charToDigit_digitChar (by omega : n < 10)]
    · rw [show ∀ l x, decOfDigits (l ++ [x]) = 10 * decOfDigits l + charToDigit x by
        intro l x; simp [decOfDigits, List.foldl_append]]
      rw [ih (n / 10) (Nat.div_lt_self (by omega) (by omega))]
      rw [charToDigit_digitChar (Nat.mod_lt _ (by omega))]
      omega

/-- A list of digit characters survives `takeWhile Char.isDigit` unchanged. -/
theorem takeWhile_digits_eq_self (l : List Char) (h : ∀ c ∈ l, c.isDigit = true) :
    l.takeWhile Char.isDigit = l := by
  induction l with
  | nil => rfl
  | cons c rest ih =>
    rw [List.takeWhile_cons, if_pos (h c (List.mem_cons_self c rest))]
    rw [ih (fun x hx => h x (List.mem_cons_of_mem c hx))]

/-- A decimal digit character is not JavaScript whitespace. -/
theorem isDigit_not_jsSpace {c : Char} (hdig : c.isDigit = true) : isJsSpace c = false := by
  by_contra hws
  rw [Bool.not_eq_false] at hws
  unfold isJsSpace at hws
  have hmem : c ∈ jsWhitespace := of_decide_eq_true hws
  unfold jsWhitespace at hmem
  simp only [List.mem_cons, List.not_mem_nil, or_false] at hmem
  rcases hmem with rfl | rfl | rfl | rfl | rfl | rfl | rfl | rfl | rfl | rfl <;>
    exact absurd hdig (by decide)

/-- JavaScript `parseInt` reads back `Nat.repr`. -/
theorem jsParseInt_repr (n : Nat) : jsParseIntChars (Nat.repr n).data = some (n : Int) := by
  rw [repr_data]
  have hall := decDigits_all_digit n
  obtain ⟨c, cs, hc⟩ : ∃ c cs, decDigits n = c :: cs := by
    cases h : decDigits n with
    | nil => exact absurd h (decDigits_ne_nil n)
    | cons c cs => exact ⟨c, cs, rfl⟩
  rw [hc] at hall ⊢
  have hcdig : c.isDigit = true := hall c (List.mem_cons_self c cs)
  have hnotws : isJsSpace c = false := isDigit_not_jsSpace hcdig
  have hm : c ≠ '-' := by intro he; rw [he] at hcdig; exact absurd hcdig (by decide)
  have hp : c ≠ '+' := by intro he; rw [he] at hcdig; exact absurd hcdig (by decide)
  unfold jsParseIntChars
  simp only [List.dropWhile_cons, hnotws, if_false, Bool.false_eq_true, List.head?_cons,
    List.tail_cons, Option.some.injEq]
  rw [if_neg (by simpa using hm), if_neg (by simpa using hp)]
  unfold parseDigits
  rw [takeWhile_digits_eq_self _ hall]
  simp only [List.isEmpty_cons, if_false]
  rw [show decOfDigits (c :: cs) = n from by rw [← hc]; exact decOfDigits_decDigits n]
  rfl

/-- `splitOnChar` never returns the empty list of parts. -/
theorem splitOnChar_ne_nil (sep : Char) (l : List Char) : splitOnChar sep l ≠ [] := by
  cases l with
  | nil => simp [splitOnChar]
  | cons c rest =>
    unfold splitOnChar
    split <;> simp

/-- Splitting a separator-free list yields the single part. -/
theorem splitOnChar_of_not_mem (sep : Char) (l : List Char) (h : sep ∉ l) :
    splitOnChar sep l = [l] := by
  induction l with
  | nil => rfl
  | cons c rest ih =>
    unfold splitOnChar
    rw [if_neg (by rintro rfl; exact h (List.mem_cons_self _ _))]
    rw [ih (fun hmem => h (List.mem_cons_of_mem c hmem))]
    rfl

/-- Splitting at the first separator occurrence. -/
theorem splitOnChar_append (sep : Char) (l₁ l₂ : List Char) (h : sep ∉ l₁) :
    splitOnChar sep (l₁ ++ sep :: l₂) = l₁ :: splitOnChar sep l₂ := by
  induction l₁ with
  | nil => simp [splitOnChar]
  | cons c rest ih =>
    rw [List.cons_append]
    unfold splitOnChar
    rw [if_neg (by rintro rfl; exact h (List.mem_cons_self _ _))]
    rw [ih (fun hmem => h (List.mem_cons_of_mem c hmem))]
    cases l₂ <;> simp [splitOnChar]

/-- The `:`-separated parts of a pending key built by `mkRetryKey`. -/
theorem splitOnChar_mkRetryKey (ts : Nat) (id : String) (h : ':' ∉ id.data) :
    splitOnChar ':' (mkRetryKey ts id).data =
      ["retry".data, (Nat.repr ts).data, id.data] := by
  have hdata : (mkRetryKey ts id).data =
      "retry".data ++ ':' :: ((Nat.repr ts).data ++ ':' :: id.data) := by
    simp [mkRetryKey, String.data_append]
  rw [hdata]
  rw [splitOnChar_append ':' _ _ (by decide)]
  rw [splitOnChar_append ':' _ _ (colon_not_mem_repr ts)]
  rw [splitOnChar_of_not_mem ':' _ h]

/-! ## Helper lemmas: the KV store -/

/-- A lookup misses exactly when no entry carries the key. -/
theorem kvLookup_eq_none_iff (s : Store) (k : String) :
    kvLookup s k = none ↔ ∀ p ∈ s, p.1 ≠ k := by
  unfold kvLookup
  rw [Option.map_eq_none', List.find?_eq_none]
  simp

/-- Deleting a key makes its lookup miss. -/
theorem kvLookup_kvDelete_self (s : Store) (k : String) :
    kvLookup (kvDelete s k) k = none := by
  rw [kvLookup_eq_none_iff]
  intro p hp
  have h := (List.mem_filter.mp hp).2
  simpa using h

/-- Deleting an absent key is a no-op. -/
theorem kvDelete_of_lookup_none (s : Store) (k : String) (h : kvLookup s k = none) :
    kvDelete s k = s := by
  unfold kvDelete
  rw [List.filter_eq_self]
  intro p hp
  simpa using (kvLookup_eq_none_iff s k).mp h p hp

/-- Deletion preserves lookup misses. -/
theorem kvLookup_kvDelete_none (s : Store) (k k2 : String) (h : kvLookup s k = none) :
    kvLookup (kvDelete s k2) k = none := by
  rw [kvLookup_eq_none_iff]
  intro p hp
  exact (kvLookup_eq_none_iff s k).mp h p (List.mem_filter.mp hp).1

/-- `pendingEntriesFor` distributes over append. -/
theorem pendingEntriesFor_append (s₁ s₂ : Store) (id : String) :
    pendingEntriesFor (s₁ ++ s₂) id = pendingEntriesFor s₁ id ++ pendingEntriesFor s₂ id :=
  List.filter_append _ _

/-- `failedEntries` distributes over append. -/
theorem failedEntries_append (s₁ s₂ : Store) :
    failedEntries (s₁ ++ s₂) = failedEntries s₁ ++ failedEntries s₂ :=
  List.filter_append _ _

/-- A pending key built by `mkRetryKey` carries the `retry:` prefix. -/
theorem mkRetryKey_pfx (ts : Nat) (id : String) :
    keyHasPfx "retry:" (mkRetryKey ts id) = true := by
  unfold keyHasPfx
  rw [show (mkRetryKey ts id).data =
      "retry:".data ++ ((Nat.repr ts).data ++ (":".data ++ id.data)) from by
    simp [mkRetryKey, String.data_append]]
  exact pfxCheck_append _ _

/-- A dead-letter key built by `mkFailedKey` carries the `failed:` prefix. -/
theorem mkFailedKey_pfx (ts : Nat) (id : String) :
    keyHasPfx "failed:" (mkFailedKey ts id) = true := by
  unfold keyHasPfx
  rw [show (mkFailedKey ts id).data =
      "failed:".data ++ ((Nat.repr ts).data ++ (":".data ++ id.data)) from by
    simp [mkFailedKey, String.data_append]]
  exact pfxCheck_append _ _

/-- A dead-letter key is not in the pending namespace. -/
theorem mkFailedKey_not_retry (ts : Nat) (id : String) :
    keyHasPfx "retry:" (mkFailedKey ts id) = false := by
  unfold keyHasPfx
  rw [show (mkFailedKey ts id).data =
      "failed:".data ++ ((Nat.repr ts).data ++ (":".data ++ id.data)) from by
    simp [mkFailedKey, String.data_append]]
  rfl

/-- Deleting a key outside the dead-letter namespace preserves `failedEntries`. -/
theorem failedEntries_kvDelete_of_not_failed (s : Store) (k : String)
    (h : keyHasPfx "failed:" k = false) :
    failedEntries (kvDelete s k) = failedEntries s := by
  unfold failedEntries kvDelete
  induction s with
  | nil => rfl
  | cons p rest ih =>
    rw [List.filter_cons, List.filter_cons]
    by_cases hp : p.1 = k
    · rw [if_neg (by simp [hp]), if_neg (by simp [hp, h]), ih]
    · rw [if_pos (by simp [hp]), List.filter_cons, ih]

/-- After deleting the unique pending key of a record (and any further key),
no pending entry for that record remains. -/
theorem pendingEntriesFor_delete_unique (s : Store) (id oldKey k2 : String)
    (huniq : ∀ p ∈ s, isPendingFor id p = true → p.1 = oldKey) :
    pendingEntriesFor (kvDelete (kvDelete s oldKey) k2) id = [] := by
  rw [List.eq_nil_iff_forall_not_mem]
  intro p hp
  unfold pendingEntriesFor kvDelete at hp
  have h1 := List.mem_filter.mp hp
  have h2 := List.mem_filter.mp h1.1
  have h3 := List.mem_filter.mp h2.1
  have hkey := huniq p h3.1 h1.2
  have hne := h3.2
  simp only [decide_eq_true_eq] at hne
  exact hne hkey

/-! ## Claim C4 -/

/-- C4: `calculateRetryDelay` returns exactly `60 * 2 ^ n` seconds for every
attempt count `n ≥ 0`, with no upper cap; in particular 60 s at attempt 0,
480 s at attempt 3, and 30720 s at attempt 9. -/
theorem claim_C4_backoff_formula :
    (∀ n : Nat, calculateRetryDelay n = 60 * 2 ^ n) ∧
      calculateRetryDelay 0 = 60 ∧ calculateRetryDelay 3 = 480 ∧
      calculateRetryDelay 9 = 30720 :=
  ⟨fun _ => rfl, by decide, by decide, by decide⟩

/-! ## Claim C3 -/

/-- C3: `updateFailedRequest` with `success = true` deletes the existing pending
key first and creates no new record in either namespace: for every store, prior
attempt count and error, the resulting store is exactly the original store with
`oldKey` removed, and the old key no longer resolves. -/
theorem claim_C3_success_deletes_only (now : Nat) (s : Store) (oldKey : String)
    (fr : FailedRequest) (err : Option String) :
    updateFailedRequest now s oldKey fr true err = kvDelete s oldKey ∧
      kvLookup (updateFailedRequest now s oldKey fr true err) oldKey = none :=
  ⟨rfl, kvLookup_kvDelete_self s oldKey⟩

/-! ## Claim C1 -/

/-- C1: for a pending record with prior `attemptCount = 9`, `updateFailedRequest`
with `success = false` deletes the pending key, appends exactly one record under
the dead-letter (`failed:`) namespace carrying `permanentlyFailed = true` and the
maximal attempt count, and leaves zero keys under the pending (`retry:`)
namespace for that record. -/
theorem claim_C1_exhausted_to_dead_letter (now : Nat) (s : Store) (oldKey : String)
    (fr : FailedRequest) (err : Option String)
    (hcount : fr.attemptCount = 9)
    (hpfx : keyHasPfx "retry:" oldKey = true)
    (huniq : ∀ p ∈ s, isPendingFor fr.id p = true → p.1 = oldKey)
    (hfresh : kvLookup s (mkFailedKey now fr.id) = none) :
    pendingEntriesFor (updateFailedRequest now s oldKey fr false err) fr.id = [] ∧
    failedEntries (updateFailedRequest now s oldKey fr false err) =
      failedEntries s ++
        [(mkFailedKey now fr.id, KVValue.json (deadLetterRecord now fr err))] ∧
    (deadLetterRecord now fr err).permanentlyFailed = true ∧
    (deadLetterRecord now fr err).attemptCount = MAX_RETRY_ATTEMPTS ∧
    kvLookup (updateFailedRequest now s oldKey fr false err) oldKey = none := by
  have hdkne : mkFailedKey now fr.id ≠ oldKey := by
    intro he
    have h1 := mkFailedKey_pfx now fr.id
    rw [he] at h1
    rw [retry_not_failed hpfx] at h1
    exact Bool.false_ne_true h1
  have hbranch : updateFailedRequest now s oldKey fr false err =
      kvDelete (kvDelete s oldKey) (mkFailedKey now fr.id) ++
        [(mkFailedKey now fr.id, KVValue.json (deadLetterRecord now fr err))] := by
    unfold updateFailedRequest
    simp only [Bool.false_eq_true, if_false]
    rw [if_pos (by rw [hcount]; decide)]
    rfl
  refine ⟨?_, ?_, rfl, ?_, ?_⟩
  · rw [hbranch, pendingEntriesFor_append,
      pendingEntriesFor_delete_unique s fr.id oldKey _ huniq]
    simp [pendingEntriesFor, isPendingFor, mkFailedKey_not_retry]
  · rw [hbranch, failedEntries_append]
    rw [show kvDelete (kvDelete s oldKey) (mkFailedKey now fr.id) = kvDelete s oldKey from
      kvDelete_of_lookup_none _ _ (kvLookup_kvDelete_none s _ oldKey hfresh)]
    rw [failedEntries_kvDelete_of_not_failed s oldKey (retry_not_failed hpfx)]
    congr 1
  · simp [deadLetterRecord, hcount, MAX_RETRY_ATTEMPTS]
  · rw [hbranch, kvLookup_eq_none_iff]
    intro p hp
    rcases List.mem_append.mp hp with h | h
    · exact (kvLookup_eq_none_iff _ _).mp
        (kvLookup_kvDelete_none _ _ _ (kvLookup_kvDelete_self s oldKey)) p h
    · rw [List.mem_singleton] at h
      rw [h]
      exact hdkne

/-- Witness for C1: the sample one-record pending store at attempt count 9. -/
theorem claim_C1_witness :
    pendingEntriesFor
        (updateFailedRequest 200 sampleStore "retry:100:abc" sampleRequest9 false
          (some "boom")) "abc" = [] ∧
      failedEntries
          (updateFailedRequest 200 sampleStore "retry:100:abc" sampleRequest9 false
            (some "boom")) =
        failedEntries sampleStore ++
          [(mkFailedKey 200 "abc",
            KVValue.json (deadLetterRecord 200 sampleRequest9 (some "boom")))] := by
  have h := claim_C1_exhausted_to_dead_letter 200 sampleStore "retry:100:abc"
    sampleRequest9 (some "boom") (by decide) (by decide) (by decide) (by decide)
  exact ⟨h.1, h.2.1⟩

/-! ## Claim C2 -/

/-- C2: for a pending record with prior `attemptCount < 9`, `updateFailedRequest`
with `success = false` deletes the old key and leaves exactly one pending key
`retry:<ts>:<id>` for the record, holding the updated record with `attemptCount`
incremented by exactly 1, and the due timestamp embedded in the key equals
`lastAttemptTimestamp + calculateRetryDelay(newAttemptCount) * 1000` exactly. -/
theorem claim_C2_reschedule (now : Nat) (s : Store) (oldKey : String)
    (fr : FailedRequest) (err : Option String)
    (hcount : fr.attemptCount < 9)
    (hid : ':' ∉ fr.id.data)
    (huniq : ∀ p ∈ s, isPendingFor fr.id p = true → p.1 = oldKey) :
    pendingEntriesFor (updateFailedRequest now s oldKey fr false err) fr.id =
      [(mkRetryKey (updatedRequestRecord now fr err).nextRetryTimestamp fr.id,
        KVValue.json { updatedRequestRecord now fr err with permanentlyFailed := false })] ∧
    (updatedRequestRecord now fr err).attemptCount = fr.attemptCount + 1 ∧
    keyTimestampOf (mkRetryKey (updatedRequestRecord now fr err).nextRetryTimestamp fr.id) =
      some (((updatedRequestRecord now fr err).lastAttemptTimestamp +
        calculateRetryDelay (updatedRequestRecord now fr err).attemptCount * 1000 : Nat) :
          Int) := by
  have hbranch : updateFailedRequest now s oldKey fr false err =
      kvDelete (kvDelete s oldKey)
          (mkRetryKey (updatedRequestRecord now fr err).nextRetryTimestamp fr.id) ++
        [(mkRetryKey (updatedRequestRecord now fr err).nextRetryTimestamp fr.id,
          KVValue.json { updatedRequestRecord now fr err with permanentlyFailed := false })] := by
    unfold updateFailedRequest
    simp only [Bool.false_eq_true, if_false]
    rw [if_neg (by simp only [MAX_RETRY_ATTEMPTS]; omega)]
    rfl
  refine ⟨?_, by simp [updatedRequestRecord], ?_⟩
  · rw [hbranch, pendingEntriesFor_append,
      pendingEntriesFor_delete_unique s fr.id oldKey _ huniq]
    simp only [List.nil_append]
    unfold pendingEntriesFor
    rw [List.filter_cons, if_pos (by
      unfold isPendingFor
      rw [splitOnChar_mkRetryKey _ _ hid]
      simp [mkRetryKey_pfx])]
    rfl
  · unfold keyTimestampOf
    rw [splitOnChar_mkRetryKey _ _ hid]
    simp only [List.getD, List.get?, Option.getD_some]
    rw [jsParseInt_repr]
    simp [updatedRequestRecord]

/-- Witness for C2: the sample one-record pending store at attempt count 3. -/
theorem claim_C2_witness :
    pendingEntriesFor
        (updateFailedRequest 200 sampleStore "retry:100:abc" sampleRequest3 false none)
        "abc" =
      [(mkRetryKey (updatedRequestRecord 200 sampleRequest3 none).nextRetryTimestamp "abc",
        KVValue.json { updatedRequestRecord 200 sampleRequest3 none with
          permanentlyFailed := false })] ∧
    keyTimestampOf
        (mkRetryKey (updatedRequestRecord 200 sampleRequest3 none).nextRetryTimestamp
          "abc") =
      some (((updatedRequestRecord 200 sampleRequest3 none).lastAttemptTimestamp +
        calculateRetryDelay (updatedRequestRecord 200 sampleRequest3 none).attemptCount *
          1000 : Nat) : Int) := by
  have h := claim_C2_reschedule 200 sampleStore "retry:100:abc" sampleRequest3 none
    (by decide) (by decide) (by decide)
  exact ⟨h.1, h.2.2⟩

/-! ## Helper lemmas: the due-entry scan -/

/-- Characterization of a successful `dueEntry`: the key is returned verbatim,
the value was a parsed record, and the embedded timestamp parsed and is due. -/
theorem dueEntry_eq_some {now : Nat} {p : String × KVValue} {e : String × StoredRecord}
    (h : dueEntry now p = some e) :
    e.1 = p.1 ∧ p.2 = KVValue.json e.2 ∧
      ∃ ts : Int, keyTimestampOf p.1 = some ts ∧ ts ≤ (now : Int) := by
  unfold dueEntry at h
  split at h
  · exact absurd h (by simp)
  · split at h
    · exact absurd h (by simp)
    · rename_i ts hts
      split at h
      · split at h
        · rename_i r hv
          simp only [Option.some.injEq] at h
          rw [← h]
          exact ⟨rfl, hv, ts, by unfold keyTimestampOf; rw [hts], by assumption⟩
        · exact absurd h (by simp)
      · exact absurd h (by simp)

/-- `dueEntry` skips malformed keys, unparsable timestamps and raw values. -/
theorem dueEntry_skips_malformed (now : Nat) (k : String) (v : KVValue)
    (h : (splitOnChar ':' k.data).length < 3 ∨
      jsParseIntChars ((splitOnChar ':' k.data).getD 1 []) = none ∨
      ∃ str, v = KVValue.raw str) :
    dueEntry now (k, v) = none := by
  unfold dueEntry
  split
  · rfl
  · rename_i h3
    split
    · rfl
    · rename_i ts hts
      rcases h with h | h | h
      · exact absurd h h3
      · rw [h] at hts; exact absurd hts (by simp)
      · split
        · obtain ⟨str, rfl⟩ := h
          rfl
        · rfl

/-! ## Claim C5 -/

/-- C5: `getRetryableRequests` returns at most `limit` entries; every returned
entry comes from the store, lies in the pending (`retry:`) namespace and has a
key-embedded due timestamp that parses and is `≤ now`; and every entry whose
key does not have the `(prefix, timestamp, id)` shape, whose timestamp does not
parse, or whose value is not a JSON record is skipped, never failing the scan. -/
theorem claim_C5_listDue_properties (now : Nat) (s : Store) (limit : Nat) :
    (getRetryableRequests now s limit).length ≤ limit ∧
    (∀ e ∈ getRetryableRequests now s limit,
      keyHasPfx "retry:" e.1 = true ∧
      (e.1, KVValue.json e.2) ∈ s ∧
      ∃ ts : Int, keyTimestampOf e.1 = some ts ∧ ts ≤ (now : Int)) ∧
    (∀ (k : String) (v : KVValue),
      (splitOnChar ':' k.data).length < 3 ∨
        jsParseIntChars ((splitOnChar ':' k.data).getD 1 []) = none ∨
        (∃ str, v = KVValue.raw str) →
      dueEntry now (k, v) = none) := by
  refine ⟨?_, ?_, fun k v h => dueEntry_skips_malformed now k v h⟩
  · exact le_trans (List.length_filterMap_le _ _) (List.length_take_le _ _)
  · intro e he
    unfold getRetryableRequests at he
    obtain ⟨a, ha, hsome⟩ := List.mem_filterMap.mp he
    have hmem : a ∈ s.filter (fun p => keyHasPfx "retry:" p.1) := List.take_subset _ _ ha
    have hfil := List.mem_filter.mp hmem
    obtain ⟨hk, hval, hts⟩ := dueEntry_eq_some hsome
    refine ⟨by rw [hk]; exact hfil.2, ?_, by rw [hk]; exact hts⟩
    rw [hk, ← hval]
    exact hfil.1

/-- Witness for C5: the mixed sample store at `now = 150` returns exactly the
due record, and each property instantiates there. -/
theorem claim_C5_witness :
    keyHasPfx "retry:" "retry:100:abc" = true ∧
      (("retry:100:abc", KVValue.json { sampleRequest3 with permanentlyFailed := false }) ∈
        sampleScanStore) ∧
      ∃ ts : Int, keyTimestampOf "retry:100:abc" = some ts ∧ ts ≤ (150 : Int) := by
  have h := (claim_C5_listDue_properties 150 sampleScanStore 10).2.1
    ("retry:100:abc", { sampleRequest3 with permanentlyFailed := false }) (by decide)
  exact h

/-! ## Helper lemmas: membership under put/delete -/

/-- An entry with a different key survives `kvDelete`. -/
theorem mem_kvDelete_of_mem_ne (s : Store) (k2 k : String) (v : KVValue)
    (hm : (k, v) ∈ s) (hne : k ≠ k2) : (k, v) ∈ kvDelete s k2 :=
  List.mem_filter.mpr ⟨hm, by simpa using hne⟩

/-- A key present before `kvPut` is still present (possibly overwritten). -/
theorem mem_kvPut_of_mem (A : Store) (k2 : String) (v2 : KVValue) (k : String) (v : KVValue)
    (hm : (k, v) ∈ A) : ∃ w, (k, w) ∈ kvPut A k2 v2 := by
  by_cases he : k = k2
  · exact ⟨v2, List.mem_append_right _ (by rw [he]; exact List.mem_singleton_self _)⟩
  · exact ⟨v, List.mem_append_left _ (mem_kvDelete_of_mem_ne A k2 k v hm he)⟩

/-! ## Claim C6 -/

/-- C6: dead-letter records are never retried automatically again: no entry
returned by `getRetryableRequests` has a key in the dead-letter (`failed:`)
namespace; `updateFailedRequest` applied to a pending key never removes a
dead-letter key; and the only keys `updateFailedRequest` can introduce are its
own dead-letter key and its own rescheduled pending key, both derived from the
pending record being processed. -/
theorem claim_C6_dead_letter_terminal :
    (∀ (now : Nat) (s : Store) (limit : Nat),
      ∀ e ∈ getRetryableRequests now s limit,
        keyHasPfx "retry:" e.1 = true ∧ keyHasPfx "failed:" e.1 = false) ∧
    (∀ (now : Nat) (s : Store) (oldKey : String) (fr : FailedRequest) (succ : Bool)
        (err : Option String) (k : String),
      keyHasPfx "retry:" oldKey = true → keyHasPfx "failed:" k = true →
      (∃ v, (k, v) ∈ s) →
      ∃ v, (k, v) ∈ updateFailedRequest now s oldKey fr succ err) ∧
    (∀ (now : Nat) (s : Store) (oldKey : String) (fr : FailedRequest) (succ : Bool)
        (err : Option String) (k : String) (v : KVValue),
      (k, v) ∈ updateFailedRequest now s oldKey fr succ err →
      (k, v) ∈ s ∨ k = mkFailedKey now fr.id ∨
        k = mkRetryKey (updatedRequestRecord now fr err).nextRetryTimestamp fr.id) := by
  refine ⟨?_, ?_, ?_⟩
  · intro now s limit e he
    have h := ((claim_C5_listDue_properties now s limit).2.1 e he).1
    exact ⟨h, retry_not_failed h⟩
  · intro now s oldKey fr succ err k hpfxOld hk hex
    obtain ⟨v, hv⟩ := hex
    have hkne : k ≠ oldKey := by
      intro he
      rw [he, retry_not_failed hpfxOld] at hk
      exact Bool.false_ne_true hk
    have h1 : (k, v) ∈ kvDelete s oldKey := mem_kvDelete_of_mem_ne s oldKey k v hv hkne
    unfold updateFailedRequest
    cases succ with
    | true => exact ⟨v, h1⟩
    | false =>
      by_cases hmax : MAX_RETRY_ATTEMPTS ≤ fr.attemptCount + 1
      · rw [if_neg (by simp), if_pos hmax]
        exact mem_kvPut_of_mem _ _ _ k v h1
      · rw [if_neg (by simp), if_neg hmax]
        exact mem_kvPut_of_mem _ _ _ k v h1
  · intro now s oldKey fr succ err k v hm
    unfold updateFailedRequest at hm
    cases succ with
    | true => exact Or.inl (List.mem_filter.mp hm).1
    | false =>
      by_cases hmax : MAX_RETRY_ATTEMPTS ≤ fr.attemptCount + 1
      · rw [if_neg (by simp), if_pos hmax] at hm
        rcases List.mem_append.mp hm with h | h
        · exact Or.inl (List.mem_filter.mp (List.mem_filter.mp h).1).1
        · rw [List.mem_singleton] at h
          exact Or.inr (Or.inl (congrArg Prod.fst h))
      · rw [if_neg (by simp), if_neg hmax] at hm
        rcases List.mem_append.mp hm with h | h
        · exact Or.inl (List.mem_filter.mp (List.mem_filter.mp h).1).1
        · rw [List.mem_singleton] at h
          exact Or.inr (Or.inr (congrArg Prod.fst h))

/-- Witness for C6: in the mixed sample store, the dead-letter entry
`failed:1:dd` survives a failure transition on the pending record. -/
theorem claim_C6_witness :
    ∃ v, (("failed:1:dd", v) : String × KVValue) ∈
      updateFailedRequest 200 sampleScanStore "retry:100:abc" sampleRequest3 false none :=
  claim_C6_dead_letter_terminal.2.1 200 sampleScanStore "retry:100:abc" sampleRequest3
    false none "failed:1:dd" (by decide) (by decide)
    ⟨KVValue.json { sampleRequest9 with id := "dd", permanentlyFailed := true }, by decide⟩

/-! ## Helper lemmas: JavaScript truthiness -/

/-- Truthiness of `a || b` is the disjunction of truthiness. -/
theorem jsTruthyO_jsOrOpt (a b : Option String) :
    jsTruthyO (jsOrOpt a b) = (jsTruthyO a || jsTruthyO b) := by
  unfold jsOrOpt
  by_cases h : jsTruthyO a = true
  · rw [if_pos h, h, Bool.true_or]
  · rw [if_neg h]
    rw [Bool.not_eq_true] at h
    rw [h, Bool.false_or]

/-- A falsy nullable string falls through `||` to the default. -/
theorem jsOrStr_falsy (a : Option String) (h : jsTruthyO a = false) (d : String) :
    jsOrStr a d = d := by
  unfold jsOrStr
  rw [h]
  rfl

/-- A truthy nullable string wins `||` over the default. -/
theorem jsOrStr_truthy (a : Option String) (v : String) (h : a = some v) (hv : v ≠ "")
    (d : String) : jsOrStr a d = v := by
  rw [h]
  unfold jsOrStr
  rw [if_pos (by unfold jsTruthyO; simpa using hv)]
  rfl

/-! ## Claim C7 (corrected) -/

/-- C7 counterexample: with `x-forwarded-to` present and `Return-Path` present
but empty, both headers are present, yet `getOriginalSender` returns the
envelope sender, not the bracket-stripped `Return-Path` value — so presence of
the two headers alone does not determine the result as the claim states. -/
theorem claim_C7_counterexample :
    hGet [("x-forwarded-to", "fwd@x.com"), ("return-path", "")] "x-forwarded-to" =
        some "fwd@x.com" ∧
      hGet [("x-forwarded-to", "fwd@x.com"), ("return-path", "")] "return-path" = some "" ∧
      getOriginalSender "me@x.com" [("x-forwarded-to", "fwd@x.com"), ("return-path", "")] =
        "me@x.com" ∧
      getOriginalSender "me@x.com" [("x-forwarded-to", "fwd@x.com"), ("return-path", "")] ≠
        stripAngleBrackets "" := by
  decide

/-- C7 (amended): `getOriginalSender` returns the `Return-Path` value with angle
brackets stripped exactly when a forwarding-indicator header (`x-forwarded-to`
or `x-forwarded-for`) is present with a non-empty value AND `Return-Path` is
present with a non-empty value; in every other case (including
present-but-empty headers) it returns the envelope `from` unchanged. -/
theorem claim_C7_sender_resolution (msgFrom : String) (headers : HeadersT) :
    (((jsTruthyO (hGet headers "x-forwarded-to") ||
          jsTruthyO (hGet headers "x-forwarded-for")) = true ∧
        jsTruthyO (hGet headers "return-path") = true) →
      getOriginalSender msgFrom headers =
        stripAngleBrackets ((hGet headers "return-path").getD "")) ∧
    (((jsTruthyO (hGet headers "x-forwarded-to") ||
          jsTruthyO (hGet headers "x-forwarded-for")) = false ∨
        jsTruthyO (hGet headers "return-path") = false) →
      getOriginalSender msgFrom headers = msgFrom) := by
  constructor
  · rintro ⟨hf, hr⟩
    unfold getOriginalSender
    rw [if_pos (by rw [jsTruthyO_jsOrOpt, hf, hr]; rfl)]
    rfl
  · intro hcase
    unfold getOriginalSender
    rw [if_neg ?_]
    rw [jsTruthyO_jsOrOpt]
    rcases hcase with h | h
    · rw [h, Bool.false_and]
      exact Bool.false_ne_true
    · rw [h, Bool.and_false]
      exact Bool.false_ne_true

/-- Witness for C7 at concrete forwarded headers. -/
theorem claim_C7_witness :
    getOriginalSender "relay@x.com"
        [("x-forwarded-to", "staging@x.com"), ("return-path", "<orig@g.com>")] =
      stripAngleBrackets
        ((hGet [("x-forwarded-to", "staging@x.com"), ("return-path", "<orig@g.com>")]
          "return-path").getD "") :=
  (claim_C7_sender_resolution "relay@x.com"
    [("x-forwarded-to", "staging@x.com"), ("return-path", "<orig@g.com>")]).1
    ⟨by decide, by decide⟩

/-! ## Claim C8 (corrected) -/

/-- C8 counterexample: with no `cc`/`bcc` headers, `createStructuredEmail`
leaves `cc` and `bcc` `undefined` (`none`), not the empty list the claim
states. -/
theorem claim_C8_counterexample :
    (createStructuredEmail ⟨"sender@x.com", "env@x.com", []⟩ ⟨none, none⟩ "").cc = none ∧
      (createStructuredEmail ⟨"sender@x.com", "env@x.com", []⟩ ⟨none, none⟩ "").bcc = none ∧
      (createStructuredEmail ⟨"sender@x.com", "env@x.com", []⟩ ⟨none, none⟩ "").cc ≠
        some ([] : List EmailAddress) := by
  decide

/-- C8 (amended): `subject`, `date` and `message_id` default to the empty string
when their header is absent; `cc` and `bcc` are omitted (`undefined`) when their
header is absent or empty, rather than an empty list; and `to` is parsed from
the header `To` value when it is present and non-empty, falling back to the
envelope recipient when the `To` header is absent or empty. -/
theorem claim_C8_field_defaults (m : EmailMsg) (body : EmailBody) (raw : String) :
    (hGet m.headers "subject" = none → (createStructuredEmail m body raw).subject = "") ∧
    (hGet m.headers "date" = none → (createStructuredEmail m body raw).date = "") ∧
    (hGet m.headers "message-id" = none →
      (createStructuredEmail m body raw).message_id = "") ∧
    (jsTruthyO (hGet m.headers "cc") = false → (createStructuredEmail m body raw).cc = none) ∧
    (jsTruthyO (hGet m.headers "bcc") = false →
      (createStructuredEmail m body raw).bcc = none) ∧
    (∀ v, hGet m.headers "to" = some v → v ≠ "" →
      (createStructuredEmail m body raw).toAddrs = parseEmailAddresses v) ∧
    (jsTruthyO (hGet m.headers "to") = false →
      (createStructuredEmail m body raw).toAddrs = parseEmailAddresses m.envTo) := by
  refine ⟨?_, ?_, ?_, ?_, ?_, ?_, ?_⟩
  · intro h
    simp [createStructuredEmail, h, jsOrStr]
  · intro h
    simp [createStructuredEmail, h, jsOrStr]
  · intro h
    simp [createStructuredEmail, h, jsOrStr]
  · intro h
    simp [createStructuredEmail, jsOrStr_falsy _ h]
  · intro h
    simp [createStructuredEmail, jsOrStr_falsy _ h]
  · intro v hv hne
    simp [createStructuredEmail, jsOrStr_truthy _ v hv hne]
  · intro h
    simp [createStructuredEmail, jsOrStr_falsy _ h]

/-- Witness for C8 at a concrete header-free message. -/
theorem claim_C8_witness :
    (createStructuredEmail ⟨"s@x.com", "env@x.com", []⟩ ⟨none, none⟩ "").subject = "" ∧
      (createStructuredEmail ⟨"s@x.com", "env@x.com", []⟩ ⟨none, none⟩ "").cc = none ∧
      (createStructuredEmail ⟨"s@x.com", "env@x.com", []⟩ ⟨none, none⟩ "").toAddrs =
        parseEmailAddresses "env@x.com" := by
  have h := claim_C8_field_defaults ⟨"s@x.com", "env@x.com", []⟩ ⟨none, none⟩ ""
  exact ⟨h.1 (by decide), h.2.2.2.1 (by decide), h.2.2.2.2.2.2 (by decide)⟩

/-! ## Claim C9 -/

/-- C9: `parseEmailAddresses` splits at a comma exactly when the remainder holds
an even number of double quotes (so a comma inside one quoted display name does
not split), parses each part, and keeps only results with a non-empty email; on
`"A <a@x.com>, \"B, C\" <b@x.com>"` it yields exactly the two addresses. -/
theorem claim_C9_quote_aware_split :
    parseEmailAddresses "A <a@x.com>, \"B, C\" <b@x.com>" =
      [{ email := "a@x.com", name := "A" }, { email := "b@x.com", name := "B, C" }] ∧
    (∀ s : String, ∀ a ∈ parseEmailAddresses s, a.email ≠ "") ∧
    (∀ l₁ l₂ : List Char, ',' ∉ l₁ → countQuotes l₂ % 2 = 0 →
      qSplit (l₁ ++ ',' :: l₂) = l₁ :: qSplit l₂) ∧
    (∀ l₁ l₂ : List Char, ',' ∉ l₁ → countQuotes l₂ % 2 = 1 →
      qSplit (l₁ ++ ',' :: l₂) =
        (l₁ ++ ',' :: (qSplit l₂).headD []) :: (qSplit l₂).tail) := by
  refine ⟨by decide, ?_, ?_, ?_⟩
  · intro s a ha
    unfold parseEmailAddresses at ha
    split at ha
    · exact absurd ha (by simp)
    · have h := (List.mem_filter.mp ha).2
      simpa using h
  · intro l₁ l₂ h1 h2
    induction l₁ with
    | nil =>
      rw [List.nil_append]
      unfold qSplit
      rw [if_pos (by simp [countQuotes] at h2 ⊢; omega)]
      cases l₂ <;> simp [qSplit]
    | cons c rest ih =>
      have hc : ¬ c = ',' := by rintro rfl; exact h1 (List.mem_cons_self _ _)
      rw [List.cons_append]
      unfold qSplit
      rw [if_neg (by simp [hc])]
      rw [ih (fun hm => h1 (List.mem_cons_of_mem c hm))]
      cases l₂ <;> simp [qSplit]
  · intro l₁ l₂ h1 h2
    induction l₁ with
    | nil =>
      rw [List.nil_append]
      unfold qSplit
      rw [if_neg (by simp [countQuotes] at h2 ⊢; omega)]
      cases l₂ <;> simp [qSplit]
    | cons c rest ih =>
      have hc : ¬ c = ',' := by rintro rfl; exact h1 (List.mem_cons_self _ _)
      rw [List.cons_append]
      unfold qSplit
      rw [if_neg (by simp [hc])]
      rw [ih (fun hm => h1 (List.mem_cons_of_mem c hm))]
      cases l₂ <;> simp [qSplit]

/-- Witness for C9: an even-quote comma splits a concrete list. -/
theorem claim_C9_witness :
    qSplit ("ab".data ++ ',' :: "cd".data) = "ab".data :: qSplit "cd".data :=
  claim_C9_quote_aware_split.2.2.1 "ab".data "cd".data (by decide) (by decide)

/-! ## Helper lemmas: the address regex only selects characters of its input -/

/-- Trimming yields a sublist. -/
theorem jsTrim_sublist (l : List Char) : (jsTrim l).Sublist l := by
  unfold jsTrim
  have h1 : (((l.dropWhile isJsSpace).reverse.dropWhile isJsSpace).reverse).Sublist
      ((l.dropWhile isJsSpace).reverse.reverse) :=
    List.Sublist.reverse (List.dropWhile_sublist _)
  rw [List.reverse_reverse] at h1
  exact h1.trans (List.dropWhile_sublist _)

/-- A successful suffix match returns a sublist of the text after `<`. -/
theorem suffixMatch_sublist {s g2 : List Char} (h : suffixMatch s = some g2) :
    g2.Sublist s := by
  unfold suffixMatch at h
  split at h
  · split at h
    · simp only [Option.some.injEq] at h
      rw [← h]
      exact List.dropLast_sublist s
    · exact absurd h (by simp)
  · exact absurd h (by simp)

/-- A successful regex attempt returns group 2 as a sublist of the rest. -/
theorem regexAttempt_sublist {g1 rest a b : List Char}
    (h : regexAttempt g1 rest = some (a, b)) : b.Sublist rest := by
  unfold regexAttempt at h
  split at h
  · rename_i s heq
    obtain ⟨g2, hg2, hpair⟩ := Option.map_eq_some'.mp h
    have hb : b = g2 := by
      have := congrArg Prod.snd hpair
      simpa using this.symm
    rw [hb]
    have h1 : ('<' :: s).Sublist rest := by
      rw [← heq]
      exact List.dropWhile_sublist _
    exact ((suffixMatch_sublist hg2).cons '<').trans h1
  · exact absurd h (by simp)

/-- The backtracking loop returns group 2 as a sublist of the remaining text. -/
theorem regexLoop_sublist :
    ∀ (rest g1 a b : List Char), regexLoop g1 rest = some (a, b) → b.Sublist rest := by
  intro rest
  induction rest with
  | nil =>
    intro g1 a b h
    exact regexAttempt_sublist h
  | cons c rest ih =>
    intro g1 a b h
    unfold regexLoop at h
    split at h
    · rename_i r heq
      simp only [Option.some.injEq] at h
      rw [h] at heq
      exact regexAttempt_sublist heq
    · split at h
      · exact absurd h (by simp)
      · exact (ih (g1 ++ [c]) a b h).cons c

/-- Unfolding equation of `jsMatchNameEmail` on a non-empty list. -/
theorem jsMatchNameEmail_cons (c : Char) (rest : List Char) :
    jsMatchNameEmail (c :: rest) =
      if isNewlineChar c = true then none else regexLoop [c] rest := rfl

/-- The full regex match returns group 2 as a sublist of the matched text. -/
theorem jsMatchNameEmail_sublist {t a b : List Char}
    (h : jsMatchNameEmail t = some (a, b)) : b.Sublist t := by
  cases t with
  | nil => exact absurd h (by simp [jsMatchNameEmail])
  | cons c rest =>
    rw [jsMatchNameEmail_cons] at h
    by_cases hnl : isNewlineChar c = true
    · rw [if_pos hnl] at h
      exact absurd h (by simp)
    · rw [if_neg hnl] at h
      exact (regexLoop_sublist rest [c] a b h).cons c

/-- `qSplit` never returns the empty list of parts. -/
theorem qSplit_ne_nil (l : List Char) : qSplit l ≠ [] := by
  cases l with
  | nil => simp [qSplit]
  | cons c rest =>
    unfold qSplit
    split <;> simp

/-- Every part produced by `qSplit` is a sublist of the input. -/
theorem mem_qSplit_sublist : ∀ (l : List Char), ∀ part ∈ qSplit l, part.Sublist l := by
  intro l
  induction l with
  | nil =>
    intro part hp
    simp [qSplit] at hp
    simp [hp]
  | cons c rest ih =>
    intro part hp
    unfold qSplit at hp
    split at hp
    · rcases List.mem_cons.mp hp with rfl | hmem
      · exact List.nil_sublist _
      · exact (ih part hmem).cons c
    · rcases List.mem_cons.mp hp with rfl | hmem
      · have hhead : (qSplit rest).headD [] ∈ qSplit rest := by
          cases hq : qSplit rest with
          | nil => exact absurd hq (qSplit_ne_nil rest)
          | cons y ys => simp
        exact (ih _ hhead).cons₂ c
      · exact (ih part (List.mem_of_mem_tail hmem)).cons c

/-- The email field of `parseEmailAddress` only contains input characters. -/
theorem parseEmailAddress_email_chars (address : String) :
    ∀ c ∈ (parseEmailAddress address).email.data, c ∈ address.data := by
  intro c hc
  unfold parseEmailAddress at hc
  split at hc
  · exact absurd hc (by simp)
  · split at hc
    · rename_i g1 g2 hm
      have h1 : (jsTrim g2).Sublist g2 := jsTrim_sublist g2
      have h2 : g2.Sublist (jsTrim address.data) := jsMatchNameEmail_sublist hm
      have h3 : (jsTrim address.data).Sublist address.data := jsTrim_sublist address.data
      exact (((h1.trans h2).trans h3)).subset hc
    · exact ((jsTrim_sublist address.data)).subset hc

/-! ## Claim C10 (corrected) -/

/-- C10 counterexample: on the bare bracketed address `<user@example.com>` the
display-name regex does not match (group 1 needs at least one character before
`<`), so `parseEmailAddress` keeps the whole input as the email, angle brackets
included — the claimed invariant fails. -/
theorem claim_C10_counterexample :
    (parseEmailAddress "<user@example.com>").email = "<user@example.com>" ∧
      '<' ∈ (parseEmailAddress "<user@example.com>").email.data ∧
      '>' ∈ (parseEmailAddress "<user@example.com>").email.data := by
  decide

/-- C10 (amended): the email field produced by `parseEmailAddress` only ever
contains characters of the input (so it is free of angle brackets and quotes
whenever the input is, but can retain them when the input carries them, as for
a bare `<user@example.com>`); the same holds for every element produced by
`parseEmailAddresses`. -/
theorem claim_C10_email_chars_subset :
    (∀ (address : String), ∀ c ∈ (parseEmailAddress address).email.data,
      c ∈ address.data) ∧
    (∀ (s : String), ∀ a ∈ parseEmailAddresses s, ∀ c ∈ a.email.data, c ∈ s.data) := by
  refine ⟨parseEmailAddress_email_chars, ?_⟩
  intro s a ha c hc
  unfold parseEmailAddresses at ha
  split at ha
  · exact absurd ha (by simp)
  · have h1 := (List.mem_filter.mp ha).1
    obtain ⟨part, hpart, hpe⟩ := List.mem_map.mp h1
    rw [← hpe] at hc
    have h2 := parseEmailAddress_email_chars (String.mk (jsTrim part)) c hc
    have h3 : c ∈ part := (jsTrim_sublist part).subset h2
    exact (mem_qSplit_sublist s.data part hpart).subset h3

/-- Witness for C10 at a concrete address. -/
theorem claim_C10_witness : 'a' ∈ ("a@b.com" : String).data :=
  claim_C10_email_chars_subset.1 "a@b.com" 'a' (by decide)
